import Mathlib

/-!
Verification of the PQS (Project Quick Start) scaffolding tool.

This development shallowly embeds the JavaScript sources in Lean 4:
`src/git-utils.js` (URL classification, normalization, cache keys),
`src/cache-manager.js` (cache index and staleness), `src/git-cloner.js`
(clone-or-cache resolution), `src/template-source.js` (source façade) and
`src/index.js` (substitution engine, question collection, materialization
pipeline).  JS strings are modelled as Lean `String`s (operated on through
their `List Char` data), JS objects as association lists, and external
collaborators (filesystem, minimatch, prompt rendering, the md5 digest,
date-fns and the uuid generator) as explicit parameters, as the spec's
scope section directs.  Regular-expression behaviour is translated
operationally: each concrete regex used by the source becomes a direct
scanning function with the same matching semantics.  Case conversion is
modelled on ASCII via `Char.toUpper`/`Char.toLower`; every string the
claims exercise is ASCII.
-/

set_option maxRecDepth 8192

namespace PQS

/-- JS `\w` character class: `[A-Za-z0-9_]` (ASCII). -/
def isWordChar (c : Char) : Bool := c.isAlphanum || c = '_'

/-- Character class `[\w\-\.]` (same set as `[\w\.-]`) used for host, owner
and repository segments in the git URL regexes. -/
def isRepoChar (c : Char) : Bool := isWordChar c || c = '-' || c = '.'

/-- JS line terminators, which the `.` regex metacharacter never matches. -/
def isLineTerm (c : Char) : Bool :=
  c = '\n' || c = '\r' || c = ' ' || c = ' '

/-- JS `\s` whitespace class (the members relevant to template text;
ASCII whitespace plus the common Unicode space characters). -/
def isJsSpace (c : Char) : Bool :=
  c = ' ' || c = '\t' || c = '\n' || c = '\r' || c = '\x0b' || c = '\x0c' ||
  c = ' ' || c = ' ' || c = ' ' || c = ' ' ||
  c = ' ' || c = ' ' || c = ' ' || c = ' ' ||
  c = ' ' || c = ' ' || c = ' ' || c = ' ' ||
  c = ' ' || c = ' ' || c = ' ' || c = ' ' ||
  c = ' ' || c = '　' || c = '﻿'

/-- JS `String.prototype.startsWith`. -/
def jsStartsWith (s p : String) : Bool := p.data.isPrefixOf s.data

/-- JS `String.prototype.endsWith`: the last `p.length` characters of `s`
equal `p`. -/
def jsEndsWith (s p : String) : Bool :=
  decide (s.data.drop (s.data.length - p.data.length) = p.data)

/-- Containment of one character list in another at any position. -/
def listInfix (sub : List Char) : List Char → Bool
  | [] => sub.isEmpty
  | c :: rest => sub.isPrefixOf (c :: rest) || listInfix sub rest

/-- JS `String.prototype.includes`. -/
def jsIncludes (s sub : String) : Bool := listInfix sub.data s.data

/-- Strip a literal prefix from a character list, returning the remainder
when the prefix matches (the building block for anchored regex literals). -/
def stripLit (p cs : List Char) : Option (List Char) :=
  if p.isPrefixOf cs then some (cs.drop p.length) else none

/-- ASCII uppercase of a whole string (JS `toUpperCase`). -/
def jsToUpper (s : String) : String := ⟨s.data.map Char.toUpper⟩

/-- ASCII lowercase of a whole string (JS `toLowerCase`). -/
def jsToLower (s : String) : String := ⟨s.data.map Char.toLower⟩

end PQS

namespace PQS.GitUtils

/-- Regex fragment `.*\.git$`: the remainder ends in `.git` and the part
before the suffix contains no line terminator (JS `.` never matches one). -/
def matchAnyDotGit (r : List Char) : Bool :=
  decide (r.drop (r.length - 4) = ".git".data) &&
    (r.take (r.length - 4)).all (fun c => !isLineTerm c)

/-- Regex fragment `https?:\/\/`: strip either scheme prefix. -/
def stripScheme (cs : List Char) : Option (List Char) :=
  match stripLit "https://".data cs with
  | some r => some r
  | none => stripLit "http://".data cs

/-- Regex fragment `[\w\-\.]+\/[\w\-\.]+$`: exactly two nonempty segment
runs separated by a single slash. -/
def matchTwoSegs (cs : List Char) : Bool :=
  let a := cs.takeWhile (fun c => c ≠ '/')
  match cs.dropWhile (fun c => c ≠ '/') with
  | c0 :: b =>
    c0 = '/' && !a.isEmpty && a.all isRepoChar && !b.isEmpty &&
      b.all isRepoChar
  | _ => false

/-- Regex fragment `[\w\-\.]+\.git$` for one segment: nonempty repo chars
followed by the literal `.git` (equivalently: all repo chars, length at
least 5, ending in `.git`, since the suffix characters are repo chars). -/
def matchSegDotGit (b : List Char) : Bool :=
  b.all isRepoChar && decide (5 ≤ b.length) &&
    decide (b.drop (b.length - 4) = ".git".data)

/-- Regex fragment `[\w\-\.]+\/[\w\-\.]+\.git$`. -/
def matchTwoSegsDotGit (cs : List Char) : Bool :=
  let a := cs.takeWhile (fun c => c ≠ '/')
  match cs.dropWhile (fun c => c ≠ '/') with
  | c0 :: b => c0 = '/' && !a.isEmpty && a.all isRepoChar && matchSegDotGit b
  | _ => false

/-- `/^https?:\/\/.*\.git$/` from `isGitUrl`. -/
def matchPatDotGit (cs : List Char) : Bool :=
  match stripScheme cs with
  | some r => matchAnyDotGit r
  | none => false

/-- `/^https?:\/\/HOST\/[\w\-\.]+\/[\w\-\.]+$/` from `isGitUrl`, for a
fixed host literal (the host string includes its trailing slash). -/
def matchPatHosted (host : String) (cs : List Char) : Bool :=
  match stripScheme cs with
  | some r =>
    match stripLit host.data r with
    | some r2 => matchTwoSegs r2
    | none => false
  | none => false

/-- `/^git@[\w\.-]+:[\w\-\.]+\/[\w\-\.]+\.git$/` from `isGitUrl`. -/
def matchPatScp (cs : List Char) : Bool :=
  match stripLit "git@".data cs with
  | some r =>
    let h := r.takeWhile (fun c => c ≠ ':')
    match r.dropWhile (fun c => c ≠ ':') with
    | c0 :: rest =>
      c0 = ':' && !h.isEmpty && h.all isRepoChar && matchTwoSegsDotGit rest
    | _ => false
  | none => false

/-- `/^ssh:\/\/git@[\w\.-]+\/[\w\-\.]+\/[\w\-\.]+\.git$/` from `isGitUrl`. -/
def matchPatSsh (cs : List Char) : Bool :=
  match stripLit "ssh://git@".data cs with
  | some r =>
    let h := r.takeWhile (fun c => c ≠ '/')
    match r.dropWhile (fun c => c ≠ '/') with
    | c0 :: rest =>
      c0 = '/' && !h.isEmpty && h.all isRepoChar && matchTwoSegsDotGit rest
    | _ => false
  | none => false

/-- `GitUtils.isGitUrl`: the location matches one of the six git URL
patterns. -/
def isGitUrl (location : String) : Bool :=
  matchPatDotGit location.data ||
  matchPatHosted "github.com/" location.data ||
  matchPatHosted "gitlab.com/" location.data ||
  matchPatHosted "bitbucket.org/" location.data ||
  matchPatScp location.data ||
  matchPatSsh location.data

/-- The six host prefixes generated by the alternation
`(github|gitlab|bitbucket)\.(com|org)` in `normalizeGitUrl`'s pattern
(each with the following literal slash). -/
def normHostPrefixes : List String :=
  ["github.com/", "github.org/", "gitlab.com/",
   "gitlab.org/", "bitbucket.com/", "bitbucket.org/"]

/-- `/^https?:\/\/(github|gitlab|bitbucket)\.(com|org)\/[\w\-\.]+\/[\w\-\.]+$/`
from `normalizeGitUrl`. -/
def matchNormHosted (cs : List Char) : Bool :=
  match stripScheme cs with
  | some r =>
    normHostPrefixes.any (fun h =>
      match stripLit h.data r with
      | some r2 => matchTwoSegs r2
      | none => false)
  | none => false

/-- `gitUrl.split('#')[0]`: the text before the first `#`. -/
def beforeHash (s : String) : String := ⟨s.data.takeWhile (fun c => c ≠ '#')⟩

/-- `GitUtils.normalizeGitUrl`: drop any `#branch` fragment, and append
`.git` to bare hosting-pattern URLs that do not already end in `.git`. -/
def normalizeGitUrl (gitUrl : String) : String :=
  let normalized := beforeHash gitUrl
  if matchNormHosted normalized.data && !jsEndsWith normalized ".git" then
    normalized ++ ".git"
  else
    normalized

/-- `GitUtils.extractBranch`: the text between the first and second `#`,
or none when the URL has no `#`. -/
def extractBranch (gitUrl : String) : Option String :=
  match gitUrl.data.dropWhile (fun c => c ≠ '#') with
  | '#' :: r => some ⟨r.takeWhile (fun c => c ≠ '#')⟩
  | _ => none

/-- One JS `String.prototype.replace` with an anchored literal prefix
pattern: strip the prefix when present, else leave the string unchanged. -/
def stripPrefixIf (p : String) (s : List Char) : List Char :=
  match stripLit p.data s with
  | some r => r
  | none => s

/-- `.replace(/^https?:\/\//, '')`. -/
def stripSchemeIf (s : List Char) : List Char :=
  match stripScheme s with
  | some r => r
  | none => s

/-- The human-readable part of `generateCacheKey`: the chain of `replace`
calls applied to the normalized URL (strip scheme, `git@`, `ssh://git@`,
turn `:` and `/` into `-`, drop a trailing `.git`, keep `[a-zA-Z0-9-]`). -/
def readablePart (normalized : String) : String :=
  let s1 := stripSchemeIf normalized.data
  let s2 := stripPrefixIf "git@" s1
  let s3 := stripPrefixIf "ssh://git@" s2
  let s4 := s3.map (fun c => if c = ':' then '-' else c)
  let s5 := s4.map (fun c => if c = '/' then '-' else c)
  let s6 := if decide (s5.drop (s5.length - 4) = ".git".data) then
      s5.take (s5.length - 4)
    else s5
  ⟨s6.filter (fun c => c.isAlphanum || c = '-')⟩

/-- `GitUtils.generateCacheKey`.  The md5 digest (truncated to 8 hex
characters in the source) is an external crypto primitive, passed in as
the function `hash`; the key is the readable slug of the normalized URL
joined to the digest of the normalized URL. -/
def generateCacheKey (hash : String → String) (gitUrl : String) : String :=
  let normalized := normalizeGitUrl gitUrl
  readablePart normalized ++ "-" ++ hash normalized

/-- `GitUtils.getMainCachePath`: `~/.pqs/cache` (the home directory is
abbreviated as `~` in the model). -/
def getMainCachePath : String := "~/.pqs/cache"

/-- `GitUtils.getCachePath`: the per-repository cache directory. -/
def getCachePath (hash : String → String) (gitUrl : String) : String :=
  getMainCachePath ++ "/" ++ generateCacheKey hash gitUrl

/-- `GitUtils.validateGitUrl`: pattern check, then rejection of `..` and
`//` substrings, then a minimum length of 10. -/
def validateGitUrl (gitUrl : String) : Bool :=
  if !isGitUrl gitUrl then false
  else if jsIncludes gitUrl ".." || jsIncludes gitUrl "//" then false
  else if gitUrl.length < 10 then false
  else true

/-- Repository identity extracted by `parseGitUrl`. -/
structure RepoInfo where
  host : String
  owner : String
  name : String
  full : String
  deriving Repr, DecidableEq

/-- Split a character list into slash-separated segments. -/
def slashSegs (cs : List Char) : List (List Char) := cs.splitOn '/'

/-- `GitUtils.parseGitUrl`: match the normalized URL against the HTTPS and
SSH capture patterns, falling back to the `unknown` sentinel. -/
def parseGitUrl (gitUrl : String) : RepoInfo :=
  let normalized := (normalizeGitUrl gitUrl).data
  let fromSegs : List (List Char) → Option RepoInfo := fun segs =>
    match segs with
    | [h, o, n] =>
      if !h.isEmpty && h.all isRepoChar && !o.isEmpty && o.all isRepoChar &&
          matchSegDotGit n then
        let nm := n.take (n.length - 4)
        some ⟨⟨h⟩, ⟨o⟩, ⟨nm⟩, ⟨o ++ '/' :: nm⟩⟩
      else none
    | _ => none
  let httpsInfo : Option RepoInfo :=
    match stripScheme normalized with
    | some r => fromSegs (slashSegs r)
    | none => none
  match httpsInfo with
  | some info => info
  | none =>
    let scpInfo : Option RepoInfo :=
      match stripLit "git@".data normalized with
      | some r =>
        let h := r.takeWhile (fun c => c ≠ ':')
        match r.dropWhile (fun c => c ≠ ':') with
        | ':' :: rest =>
          if !h.isEmpty && h.all isRepoChar then fromSegs (h :: slashSegs rest)
          else none
        | _ => none
      | none => none
    match scpInfo with
    | some info => info
    | none => ⟨"unknown", "unknown", "unknown", "unknown/unknown"⟩

end PQS.GitUtils

namespace PQS.Cache

open PQS.GitUtils

/-- One record of the persisted cache index (`cache-manager.js`).  The
timestamp is milliseconds since the epoch, as JS `Date` arithmetic uses. -/
structure CacheEntry where
  url : String
  branch : Option String
  lastUpdated : Nat
  host : String
  owner : String
  name : String
  deriving Repr, DecidableEq

/-- The state a cache operation observes: the loaded index (cache key to
entry), the set of directories present on disk, and the current time in
milliseconds. -/
structure CacheState where
  index : List (String × CacheEntry)
  dirs : List String
  now : Nat

/-- Association-list lookup (JS object property access `index[cacheKey]`). -/
def lookupEntry (index : List (String × CacheEntry)) (k : String) :
    Option CacheEntry :=
  (index.find? (fun p => p.1 == k)).map (fun p => p.2)

/-- `CacheManager.getCacheInfo`: an entry is reported only when the index
has a record for the key and the cache directory exists on disk. -/
def getCacheInfo (hash : String → String) (st : CacheState) (gitUrl : String) :
    Option CacheEntry :=
  let cacheKey := generateCacheKey hash gitUrl
  let cachePath := getCachePath hash gitUrl
  match lookupEntry st.index cacheKey with
  | some e => if st.dirs.contains cachePath then some e else none
  | none => none

/-- `CacheManager.isCacheStale`: true when the repository is not cached,
or when its age exceeds `maxAgeDays` (converted to milliseconds). -/
def isCacheStale (hash : String → String) (st : CacheState) (gitUrl : String)
    (maxAgeDays : Nat) : Bool :=
  match getCacheInfo hash st gitUrl with
  | none => true
  | some e =>
    decide ((st.now : Int) - (e.lastUpdated : Int) >
      (maxAgeDays : Int) * 24 * 60 * 60 * 1000)

/-- The externally visible cache mutations performed by `git-cloner.js`:
removing a cached directory, running `git clone`, and rewriting the index
record.  Reads and console output are not mutations and are not traced. -/
inductive GitAction where
  | removeDir (path : String)
  | clone (url : String) (branch : Option String) (path : String)
  | updateIndex (key : String) (entry : CacheEntry)
  deriving Repr, DecidableEq

/-- `GitCloner.cloneOrGetCached`: validate the URL, require a git client,
then return the cached path untouched when an entry exists (with its
directory) and `force` is false; otherwise remove any forced-out copy,
shallow-clone the normalized URL at the extracted branch, and refresh the
index entry with the current time.  The subprocess itself is external; the
successful-clone path is modelled (the failure path only removes the
partial directory and raises).  The returned list is the trace of cache
mutations. -/
def cloneOrGetCached (hash : String → String) (gitAvailable : Bool)
    (st : CacheState) (gitUrl : String) (force : Bool) :
    Except String (String × List GitAction) :=
  if !validateGitUrl gitUrl then
    .error ("Invalid git URL: " ++ gitUrl)
  else if !gitAvailable then
    .error "Git is not installed or not available in PATH"
  else
    let cachePath := getCachePath hash gitUrl
    let cacheInfo := getCacheInfo hash st gitUrl
    if !force && cacheInfo.isSome then
      .ok (cachePath, [])
    else
      let removeActs : List GitAction :=
        if force && cacheInfo.isSome then [.removeDir cachePath] else []
      let info := parseGitUrl gitUrl
      let entry : CacheEntry :=
        { url := normalizeGitUrl gitUrl
          branch := extractBranch gitUrl
          lastUpdated := st.now
          host := info.host
          owner := info.owner
          name := info.name }
      .ok (cachePath,
        removeActs ++
        [.clone (normalizeGitUrl gitUrl) (extractBranch gitUrl) cachePath,
         .updateIndex (generateCacheKey hash gitUrl) entry])

end PQS.Cache

namespace PQS.TemplateSource

open PQS.GitUtils

/-- `location.replace('~', homedir)`: JS `replace` with a string pattern
replaces only the first occurrence. -/
def expandHome (homedir location : String) : String :=
  let pre := location.data.takeWhile (fun c => c ≠ '~')
  match location.data.dropWhile (fun c => c ≠ '~') with
  | '~' :: rest => ⟨pre ++ homedir.data ++ rest⟩
  | _ => location

/-- `TemplateSource.getLocalPath` for a local source. -/
def getLocalPath (homedir location : String) : String :=
  expandHome homedir location

/-- `TemplateSource.isAvailable`: a remote source (classified by
`isGitUrl`) is available when its URL validates and a git client is
reachable; a local source is available when its expanded path exists.
The filesystem is the external `pathExists` capability. -/
def isAvailable (homedir : String) (gitAvailable : Bool)
    (pathExists : String → Bool) (location : String) : Bool :=
  if isGitUrl location then
    validateGitUrl location && gitAvailable
  else
    pathExists (getLocalPath homedir location)

end PQS.TemplateSource

namespace PQS.Subst

/-- A JS value as it occurs in template `values` and collected answers:
string, boolean, number, or an array of selected checkbox values. -/
inductive JsVal where
  | str (s : String)
  | boolean (b : Bool)
  | num (n : Int)
  | arr (elems : List JsVal)
  deriving Repr, BEq

mutual

/-- JS `String(value)` coercion for the values the tool handles. -/
def jsString : JsVal → String
  | .str s => s
  | .boolean b => if b then "true" else "false"
  | .num n => toString n
  | .arr elems => jsStringList elems

/-- JS `String(array)`: elements joined with commas. -/
def jsStringList : List JsVal → String
  | [] => ""
  | [v] => jsString v
  | v :: v2 :: rest => jsString v ++ "," ++ jsStringList (v2 :: rest)

end

/-- A JS object used as a value/answer map, in property insertion order. -/
abbrev ObjMap := List (String × JsVal)

/-- JS property read `values[key]`. -/
def lookupVal (values : ObjMap) (k : String) : Option JsVal :=
  (values.find? (fun p => p.1 == k)).map (fun p => p.2)

/-- JS property write `obj[key] = v`: overwrite in place when the key is
present, otherwise append. -/
def setVal (values : ObjMap) (k : String) (v : JsVal) : ObjMap :=
  if (values.find? (fun p => p.1 == k)).isSome then
    values.map (fun p => if p.1 == k then (k, v) else p)
  else
    values ++ [(k, v)]

/-- JS truthiness for the modelled values. -/
def jsTruthy : JsVal → Bool
  | .str s => !s.isEmpty
  | .boolean b => b
  | .num n => decide (n ≠ 0)
  | .arr _ => true

/-- The separator class `[-_\s]` of the CAMEL/PASCAL regex. -/
def isSep (c : Char) : Bool := c = '-' || c = '_' || isJsSpace c

/-- `text.replace(/[-_\s]+(.)?/g, (_, ch) => ch ? ch.toUpperCase() : '')`:
each maximal separator run is removed together with the following
character, which is re-emitted upper-cased (a run at the end of the text
is simply removed).  The character after a maximal run can never be a
separator or a line terminator, so the optional `(.)` group captures it
whenever it exists. -/
def camelCoreF : Nat → List Char → List Char
  | _, [] => []
  | 0, _ :: _ => []
  | fuel + 1, c :: rest =>
    if isSep c then
      match rest.dropWhile isSep with
      | [] => []
      | d :: rest2 => Char.toUpper d :: camelCoreF fuel rest2
    else
      c :: camelCoreF fuel rest

/-- See `camelCoreF`: the fuel only bounds the recursion depth and is
instantiated with the input length, which never runs out because each
step strictly shortens the text. -/
def camelCore (cs : List Char) : List Char := camelCoreF cs.length cs

/-- `.replace(/^(.)/, (_, ch) => ch.toUpperCase())` from the PASCAL branch:
upper-case the first character (JS `.` does not match a line terminator,
which would simply be left in place). -/
def pascalFix : List Char → List Char
  | [] => []
  | c :: r => if isLineTerm c then c :: r else Char.toUpper c :: r

/-- Global replacement of every maximal nonempty run of characters
satisfying `p` by the single character `sep` (the shape of the
`[_\s]+`/`[-\s]+`/`\s+`/`-+` replaces in KEBAB, SNAKE and SLUG). -/
def collapseRunsF (p : Char → Bool) (sep : Char) : Nat → List Char → List Char
  | _, [] => []
  | 0, _ :: _ => []
  | fuel + 1, c :: rest =>
    if p c then
      sep :: collapseRunsF p sep fuel (rest.dropWhile p)
    else
      c :: collapseRunsF p sep fuel rest

/-- See `collapseRunsF`: fuel-bounded with the input length, which is
always sufficient. -/
def collapseRuns (p : Char → Bool) (sep : Char) (cs : List Char) :
    List Char :=
  collapseRunsF p sep cs.length cs

/-- `text.replace(/\w\S*/g, txt => txt.charAt(0).toUpperCase() +
txt.substr(1).toLowerCase())` from the TITLE branch: every match starts at
a word character and extends through the following non-space run. -/
def titleCoreF : Nat → List Char → List Char
  | _, [] => []
  | 0, _ :: _ => []
  | fuel + 1, c :: rest =>
    if isWordChar c then
      Char.toUpper c ::
        ((rest.takeWhile (fun d => !isJsSpace d)).map Char.toLower ++
          titleCoreF fuel (rest.dropWhile (fun d => !isJsSpace d)))
    else
      c :: titleCoreF fuel rest

/-- See `titleCoreF`: fuel-bounded with the input length, which is always
sufficient. -/
def titleCore (cs : List Char) : List Char := titleCoreF cs.length cs

/-- The KEBAB branch: lowercase, collapse `[_\s]+` runs to `-`, keep only
`[a-z0-9-]`. -/
def kebabCore (text : String) : String :=
  let l1 := (jsToLower text).data
  let l2 := collapseRuns (fun c => c = '_' || isJsSpace c) '-' l1
  ⟨l2.filter (fun c => ('a' ≤ c && c ≤ 'z') || c.isDigit || c = '-')⟩

/-- The SNAKE branch: lowercase, collapse `[-\s]+` runs to `_`, keep only
`[a-z0-9_]`. -/
def snakeCore (text : String) : String :=
  let l1 := (jsToLower text).data
  let l2 := collapseRuns (fun c => c = '-' || isJsSpace c) '_' l1
  ⟨l2.filter (fun c => ('a' ≤ c && c ≤ 'z') || c.isDigit || c = '_')⟩

/-- The SLUG branch: lowercase, keep `[a-z0-9\s-]`, collapse whitespace
runs to `-`, collapse `-` runs, then strip one leading and one trailing
`-` (the `/^-|-$/g` anchors match at most once each). -/
def slugCore (text : String) : String :=
  let l1 := (jsToLower text).data
  let l2 := l1.filter (fun c =>
    ('a' ≤ c && c ≤ 'z') || c.isDigit || isJsSpace c || c = '-')
  let l3 := collapseRuns isJsSpace '-' l2
  let l4 := collapseRuns (fun c => c = '-') '-' l3
  let l5 := match l4 with
    | '-' :: r => r
    | other => other
  let l6 := match l5.reverse with
    | '-' :: r => r.reverse
    | _ => l5
  ⟨l6⟩

/-- `PQS.transformText` (`src/index.js`): dispatch on the upper-cased
transformation name; the default branch returns the text unchanged. -/
def transformText (text transformation : String) : String :=
  let t := jsToUpper transformation
  if t = "UPPER" then jsToUpper text
  else if t = "LOWER" then jsToLower text
  else if t = "CAMEL" then ⟨camelCore text.data⟩
  else if t = "KEBAB" then kebabCore text
  else if t = "SNAKE" then snakeCore text
  else if t = "PASCAL" then ⟨pascalFix (camelCore text.data)⟩
  else if t = "TITLE" then ⟨titleCore text.data⟩
  else if t = "SLUG" then slugCore text
  else text

/-- The external effectful capabilities of the substitution engine:
`formatDate` stands for date-fns formatting of the current wall-clock
time (`PQS.formatDate`), and `uuidAt k` is the `k`-th value produced by
the `uuid()` generator during the run (`PQS.generateUUID`). -/
structure SubstEnv where
  formatDate : String → String
  uuidAt : Nat → String

/-- The literal `{{PQS:` that opens a substitution token. -/
def tokenOpen : List Char := "\x7b\x7bPQS:".data

/-- The closing brace character. -/
def closeBrace : Char := '\x7d'

/-- The transformation sub-pattern `/^(\w+)\(([^)]+)\)$/` applied to a
token's inner text: a nonempty word-character run, a parenthesized
nonempty run of non-`)` characters, and nothing after the `)`. -/
def parseTransform (inner : List Char) : Option (String × String) :=
  let t := inner.takeWhile isWordChar
  match inner.dropWhile isWordChar with
  | c0 :: rest =>
    if c0 = '(' then
      let a := rest.takeWhile (fun c => c ≠ ')')
      match rest.dropWhile (fun c => c ≠ ')') with
      | [c1] =>
        if c1 = ')' ∧ t ≠ [] ∧ a ≠ [] then some (⟨t⟩, ⟨a⟩) else none
      | _ => none
    else none
  | _ => none

/-- Attempt to match `/\{\{PQS:([^}]+)\}\}/` at the head of the text,
returning the captured inner text and the remainder after the match: the
literal opener, a nonempty run of non-closing-brace characters, then two
closing braces. -/
def tryToken (cs : List Char) : Option (List Char × List Char) :=
  match stripLit tokenOpen cs with
  | none => none
  | some r =>
    let inner := r.takeWhile (fun c => c ≠ closeBrace)
    let rest2 := r.dropWhile (fun c => c ≠ closeBrace)
    if 2 ≤ rest2.length ∧ rest2.take 2 = [closeBrace, closeBrace] ∧
        inner ≠ [] then
      some (inner, rest2.drop 2)
    else none

/-- A successful token match consumes at least the opener and the two
closing braces, so the remainder is strictly shorter (termination measure
of the scan). -/
theorem tryToken_some_length {cs inner after : List Char}
    (h : tryToken cs = some (inner, after)) : after.length < cs.length := by
  unfold tryToken at h
  cases hs : stripLit tokenOpen cs with
  | none => rw [hs] at h; cases h
  | some r =>
    rw [hs] at h
    dsimp only at h
    have hrlen : r.length = cs.length - tokenOpen.length := by
      unfold stripLit at hs
      split at hs
      · cases hs; simp
      · cases hs
    have hw : (r.dropWhile (fun c => c ≠ closeBrace)).length ≤ r.length :=
      (List.dropWhile_sublist _).length_le
    split at h
    · rename_i hcond
      injection h with h2
      injection h2 with h3 h4
      subst h4
      have htol : tokenOpen.length = 6 := rfl
      simp only [List.length_drop]
      omega
    · cases h

/-- The replacement callback of `performSubstitutions`, with the uuid
counter threaded through: transformation tokens dispatch on `DATE`,
`UUID`, then a defined value; otherwise the whole placeholder is tried as
a direct value name; an unresolved token is reproduced verbatim. -/
def directLookup (values : ObjMap) (inner : List Char) (k : Nat) :
    List Char × Nat :=
  match lookupVal values ⟨inner⟩ with
  | some v => ((jsString v).data, k)
  | none => (tokenOpen ++ inner ++ [closeBrace, closeBrace], k)

/-- See `directLookup`; this is the branch structure of the callback in
`performSubstitutions` (`src/index.js` lines 237-258). -/
def substCallback (env : SubstEnv) (values : ObjMap) (inner : List Char)
    (k : Nat) : List Char × Nat :=
  match parseTransform inner with
  | some (t, arg) =>
    if t = "DATE" then ((env.formatDate arg).data, k)
    else if t = "UUID" then ((env.uuidAt k).data, k + 1)
    else
      match lookupVal values arg with
      | some v => ((transformText (jsString v) t).data, k)
      | none => directLookup values inner k
  | none => directLookup values inner k

/-- The left-to-right global-replace scan of
`content.replace(/\{\{PQS:([^}]+)\}\}/g, cb)`: at each position try the
token pattern; on a match emit the callback's output and continue after
the match, otherwise emit the character and advance by one. -/
def substScanF (env : SubstEnv) (values : ObjMap) :
    Nat → List Char → Nat → List Char × Nat
  | _, [], k => ([], k)
  | 0, _ :: _, k => ([], k)
  | fuel + 1, c :: rest, k =>
    match tryToken (c :: rest) with
    | some (inner, after) =>
      let rk := substCallback env values inner k
      let tk := substScanF env values fuel after rk.2
      (rk.1 ++ tk.1, tk.2)
    | none =>
      let tk := substScanF env values fuel rest k
      (c :: tk.1, tk.2)

/-- See `substScanF`: the scan over the whole content, fuel-bounded by
the content length.  By `tryToken_some_length` every scan step strictly
shortens the remaining text, so the fuel never runs out. -/
def substScan (env : SubstEnv) (values : ObjMap) (cs : List Char)
    (k : Nat) : List Char × Nat :=
  substScanF env values cs.length cs k

/-- `performSubstitutions` with the uuid counter exposed. -/
def performSubstitutionsK (env : SubstEnv) (content : String)
    (values : ObjMap) (k : Nat) : String × Nat :=
  let r := substScan env values content.data k
  (⟨r.1⟩, r.2)

/-- `PQS.performSubstitutions` (`src/index.js`): replace every
`{{PQS:expr}}` token in the content against the value map. -/
def performSubstitutions (env : SubstEnv) (content : String)
    (values : ObjMap) : String :=
  (performSubstitutionsK env content values 0).1

end PQS.Subst

namespace PQS.Pipeline

open PQS.Subst

/-- One entry of a template's `questions` array (§3 of the spec; the
fields of the objects consumed by `askQuestions`).  `validate` is
forwarded verbatim to the external prompt library (a JS function returning
`true` or an error message), and `condition` is the documented
skip-predicate over already-collected answers. -/
structure Question where
  qtype : String
  name : String
  message : String
  argument : Option String := none
  shortArgument : Option String := none
  defaultVal : Option JsVal := none
  validate : Option (String → Sum Bool String) := none
  condition : Option (ObjMap → Bool) := none

/-- The external interactive prompt capability: given a question
specification it returns the typed answer (`@inquirer/prompts`; the
`---` separator mapping and cancellation live inside it). -/
structure PromptOracle where
  ask : Question → JsVal

/-- The loop body of `PQS.askQuestions` (`src/index.js` lines 287-356):
a CLI value under the question's `argument` name wins, then one under the
question's own name; otherwise the question is prompted according to its
type (an unrecognized type throws).  The returned list records the names
of the questions that were actually prompted, in order. -/
def askQuestionsAux (oracle : PromptOracle) (cliArgs : ObjMap) :
    List Question → ObjMap → List String →
    Except String (ObjMap × List String)
  | [], answers, prompted => .ok (answers, prompted.reverse)
  | q :: rest, answers, prompted =>
    let fromArg : Option JsVal :=
      match q.argument with
      | some a => lookupVal cliArgs a
      | none => none
    match fromArg with
    | some v =>
      askQuestionsAux oracle cliArgs rest (setVal answers q.name v) prompted
    | none =>
      match lookupVal cliArgs q.name with
      | some v =>
        askQuestionsAux oracle cliArgs rest (setVal answers q.name v) prompted
      | none =>
        if q.qtype = "confirm" || q.qtype = "input" || q.qtype = "select" ||
            q.qtype = "checkbox" then
          askQuestionsAux oracle cliArgs rest
            (setVal answers q.name (oracle.ask q)) (q.name :: prompted)
        else
          .error ("Unknown question type: " ++ q.qtype)

/-- `PQS.askQuestions`. -/
def askQuestions (oracle : PromptOracle) (questions : List Question)
    (cliArgs : ObjMap) : Except String (ObjMap × List String) :=
  askQuestionsAux oracle cliArgs questions [] []

/-- The filesystem as a map from file path to file content (directories
exist implicitly as path prefixes; the pipeline only ever creates them
with `ensureDir`, which the map does not need to represent). -/
abbrev Fs := List (String × String)

/-- Read a file (`fs.readFile`); `none` models a missing or unreadable
file. -/
def readFile (fs : Fs) (p : String) : Option String :=
  (fs.find? (fun e => e.1 == p)).map (fun e => e.2)

/-- Write or overwrite a file (`fs.writeFile` / `fs.copy` target). -/
def writeFile (fs : Fs) (p content : String) : Fs :=
  if (fs.find? (fun e => e.1 == p)).isSome then
    fs.map (fun e => if e.1 == p then (p, content) else e)
  else
    fs ++ [(p, content)]

/-- `path.join` for the well-formed relative segments the pipeline uses. -/
def pathJoin (a b : String) : String := a ++ "/" ++ b

/-- All files strictly under a directory, as paths relative to it: the
model of `glob('**/*', { cwd: dir, dot: true, nodir: true })`. -/
def filesUnder (fs : Fs) (dir : String) : List String :=
  fs.filterMap (fun e =>
    match stripLit (dir ++ "/").data e.1.data with
    | some rel => some ⟨rel⟩
    | none => none)

/-- The external minimatch capability: `mm pattern relpath` decides
whether the relative path matches the glob pattern (including minimatch's
own dotfile conventions).  A run of `glob(pattern, { cwd })` is modelled
as filtering the files under `cwd` through `mm pattern`. -/
abbrev Matcher := String → String → Bool

/-- The glob metacharacter test `/[*?[\]]/` of `copyTemplate`. -/
def isGlobChar (c : Char) : Bool := c = '*' || c = '?' || c = '[' || c = ']'

/-- The exclude-pattern normalization of `copyTemplate`: patterns with
glob characters pass through; simple names are wrapped as
`**/name/**` so that they match anywhere in the tree (the dotted-name
branch is written separately in the source with the same result). -/
def normalizeExcludePattern (pattern : String) : String :=
  if pattern.data.any isGlobChar then pattern
  else if jsStartsWith pattern "." && !pattern.data.contains '/' then
    "**/" ++ pattern ++ "/**"
  else
    "**/" ++ pattern ++ "/**"

/-- Remove the first occurrence of a needle from a character list
(JS `String.prototype.replace` with a plain-string pattern). -/
def removeFirstOcc (needle : List Char) : List Char → List Char
  | [] => []
  | c :: rest =>
    if needle.isPrefixOf (c :: rest) then (c :: rest).drop needle.length
    else c :: removeFirstOcc needle rest

/-- `pattern.replace('/**', '')` as used in the exclude filters. -/
def stripFirstGlobSuffix (pattern : String) : String :=
  ⟨removeFirstOcc "/**".data pattern.data⟩

/-- `PQS.copyTemplate` (`src/index.js` lines 366-423): list every file
under the template root, filter out exclude matches (each pattern is
tried both normalized and with its `/**` suffix removed), then either
report the list (dry run) or copy each survivor into the output
directory.  Returns the updated filesystem and the file list. -/
def copyTemplate (mm : Matcher) (fs : Fs) (templatePath outputPath : String)
    (excludePatterns : List String) (dryRun : Bool) : Fs × List String :=
  let allFiles := filesUnder fs templatePath
  let normalizedExcludePatterns := excludePatterns.map normalizeExcludePattern
  let filesToCopy := allFiles.filter (fun file =>
    !(normalizedExcludePatterns.any (fun pattern =>
      mm pattern file || mm (stripFirstGlobSuffix pattern) file)))
  if dryRun then (fs, filesToCopy)
  else
    (filesToCopy.foldl (fun acc file =>
      match readFile acc (pathJoin templatePath file) with
      | some content => writeFile acc (pathJoin outputPath file) content
      | none => acc) fs,
     filesToCopy)

/-- `PQS.getFilesToCopy` (`src/index.js` lines 572-594): the copy-step
variant of the exclude filter: raw patterns, no normalization. -/
def getFilesToCopy (mm : Matcher) (fs : Fs) (sourcePath : String)
    (excludePatterns : List String) : List String :=
  let allFiles := filesUnder fs sourcePath
  if excludePatterns.isEmpty then allFiles
  else
    allFiles.filter (fun file =>
      !(excludePatterns.any (fun pattern =>
        mm pattern file || mm (stripFirstGlobSuffix pattern) file)))

/-- A template step (§3): the tagged union over `replace`, `command` and
`copy`, each with the common optional `description` and `condition`. -/
inductive Step where
  | replace (description : Option String) (condition : Option (ObjMap → Bool))
      (files : List String)
  | command (description : Option String) (condition : Option (ObjMap → Bool))
      (cmd : String)
  | copy (description : Option String) (condition : Option (ObjMap → Bool))
      (source : String) (destination : Option String) (exclude : List String)

/-- What a step decided to do: the decision content that dry-run mode
reports and the real run acts on. -/
inductive StepDecision where
  | replaceFiles (files : List String)
  | commandSkipped
  | commandRun (cmd : String)
  | copySkipped
  | copyPlan (source destination : String) (exclude : List String)
  deriving Repr, DecidableEq

/-- `step.condition && !step.condition(answers)`: the skip test used by
the command and copy steps. -/
def condBlocks (cond : Option (ObjMap → Bool)) (answers : ObjMap) : Bool :=
  match cond with
  | some c => !(c answers)
  | none => false

/-- `PQS.processReplaceStep` (`src/index.js` lines 432-459): glob every
file pattern against the *output* directory, then (outside dry-run) read
each matched file, substitute placeholders and write it back; unreadable
files are skipped.  Note that, unlike the command and copy steps, this
function never consults the step's `condition`.  The `Nat` is the
threaded uuid counter. -/
def processReplaceStep (mm : Matcher) (env : SubstEnv) (fs : Fs) (k : Nat)
    (files : List String) (outputPath : String) (values : ObjMap)
    (dryRun : Bool) : Fs × Nat × StepDecision :=
  let filesToProcess := files.foldl (fun acc filePattern =>
    acc ++ (filesUnder fs outputPath).filter (fun f => mm filePattern f)) []
  if dryRun then (fs, k, .replaceFiles filesToProcess)
  else
    let final := filesToProcess.foldl (fun (st : Fs × Nat) file =>
      let filePath := pathJoin outputPath file
      match readFile st.1 filePath with
      | some content =>
        let pr := performSubstitutionsK env content values st.2
        (writeFile st.1 filePath pr.1, pr.2)
      | none => st) (fs, k)
    (final.1, final.2, .replaceFiles filesToProcess)

/-- `PQS.processCommandStep` (`src/index.js` lines 468-496): skip when
the condition is present and false; otherwise run the shell command in
the output directory (reported only, in dry-run).  The returned list is
the trace of commands handed to the external shell; a failing command is
only logged, so it has no further effect here. -/
def processCommandStep (cond : Option (ObjMap → Bool)) (cmd : String)
    (answers : ObjMap) (dryRun : Bool) : List String × StepDecision :=
  if condBlocks cond answers then ([], .commandSkipped)
  else if dryRun then ([], .commandRun cmd)
  else ([cmd], .commandRun cmd)

/-- `PQS.processCopyStep` (`src/index.js` lines 506-564): skip when the
condition is present and false; otherwise copy `source` (a file, or a
directory filtered through the step's excludes) from the template root to
`destination` in the output.  A missing source is only a warning. -/
def processCopyStep (mm : Matcher) (fs : Fs) (templatePath outputPath : String)
    (cond : Option (ObjMap → Bool)) (source : String)
    (destinationOpt : Option String) (excludePatterns : List String)
    (answers : ObjMap) (dryRun : Bool) : Fs × StepDecision :=
  if condBlocks cond answers then (fs, .copySkipped)
  else
    let destination := destinationOpt.getD source
    let sourcePath := pathJoin templatePath source
    let destPath := pathJoin outputPath destination
    if dryRun then (fs, .copyPlan source destination excludePatterns)
    else
      let isFile := (readFile fs sourcePath).isSome
      let dirFiles := filesUnder fs sourcePath
      if !isFile && dirFiles.isEmpty then
        (fs, .copyPlan source destination excludePatterns)
      else if !dirFiles.isEmpty then
        let filesToCopy := getFilesToCopy mm fs sourcePath excludePatterns
        (filesToCopy.foldl (fun acc file =>
          match readFile acc (pathJoin sourcePath file) with
          | some content => writeFile acc (pathJoin destPath file) content
          | none => acc) fs,
         .copyPlan source destination excludePatterns)
      else
        (match readFile fs sourcePath with
         | some content => writeFile fs destPath content
         | none => fs,
         .copyPlan source destination excludePatterns)

/-- `{...a, ...b}`: spread-merge where `b`'s entries override `a`'s. -/
def mergeSpread (a b : ObjMap) : ObjMap :=
  b.foldl (fun acc p => setVal acc p.1 p.2) a

/-- The threaded state of the step loop: filesystem, uuid counter, the
commands handed to the shell, and the per-step decisions in order. -/
structure StepState where
  fs : Fs
  uuidK : Nat
  execed : List String
  decisions : List StepDecision

/-- The step loop of `createProject` (`src/index.js` lines 712-743):
steps execute in declared order; `replace` steps receive the template
`values` spread-merged beneath the collected answers, while `command` and
`copy` steps receive the answers.  A step of an unknown type is silently
ignored by the if-chain, which the closed `Step` union has no case for. -/
def runSteps (mm : Matcher) (env : SubstEnv) (templatePath outputPath : String)
    (replaceValues answers : ObjMap) (dryRun : Bool) :
    List Step → Fs → Nat → StepState
  | [], fs, k => ⟨fs, k, [], []⟩
  | step :: rest, fs, k =>
    match step with
    | .replace _ _ files =>
      let r := processReplaceStep mm env fs k files outputPath replaceValues
        dryRun
      let t := runSteps mm env templatePath outputPath replaceValues answers
        dryRun rest r.1 r.2.1
      ⟨t.fs, t.uuidK, t.execed, r.2.2 :: t.decisions⟩
    | .command _ cond cmd =>
      let r := processCommandStep cond cmd answers dryRun
      let t := runSteps mm env templatePath outputPath replaceValues answers
        dryRun rest fs k
      ⟨t.fs, t.uuidK, r.1 ++ t.execed, r.2 :: t.decisions⟩
    | .copy _ cond source dest excl =>
      let r := processCopyStep mm fs templatePath outputPath cond source dest
        excl answers dryRun
      let t := runSteps mm env templatePath outputPath replaceValues answers
        dryRun rest r.1 k
      ⟨t.fs, t.uuidK, t.execed, r.2 :: t.decisions⟩

/-- The template descriptor fields the materialization phase consumes. -/
structure Template where
  name : String
  path : String
  values : ObjMap
  exclude : List String
  steps : List Step

/-- The built-in CLI options of `create`. -/
structure CreateOptions where
  output : Option String
  force : Bool
  dryRun : Bool

/-- Everything a materialization run produced or decided. -/
structure RunResult where
  outputPath : String
  guardFailed : Bool
  copiedFiles : List String
  decisions : List StepDecision
  execed : List String
  fs : Fs
  uuidK : Nat

/-- `answers.projectName || answers.name || answers.project ||
'new-project'`: JS `||` falls through on falsy values, not just on
missing keys. -/
def orFalsy (a : Option JsVal) (b : JsVal) : JsVal :=
  match a with
  | some v => if jsTruthy v then v else b
  | none => b

/-- Output-path resolution of `createProject` (lines 670-682): an
explicit `--output` wins (`path.resolve` of an explicit path is modelled
as the path itself); otherwise the first truthy project-name-like answer,
slugified, under the current working directory. -/
def resolveOutputPath (cwd : String) (answers : ObjMap)
    (options : CreateOptions) : String :=
  match options.output with
  | some o => o
  | none =>
    let projectName := orFalsy (lookupVal answers "projectName")
      (orFalsy (lookupVal answers "name")
        (orFalsy (lookupVal answers "project") (.str "new-project")))
    pathJoin cwd (transformText (jsString projectName) "SLUG")

/-- The materialization phase of `PQS.createProject` (`src/index.js`
lines 649-750), from the point where the template and answers are in
hand: resolve the output path, apply the non-empty-destination guard,
copy the template files, then run the steps.  The uuid counter starts at
0 for the run. -/
def createProjectCore (mm : Matcher) (env : SubstEnv) (cwd : String)
    (template : Template) (answers : ObjMap) (options : CreateOptions)
    (fs0 : Fs) : RunResult :=
  let outputPath := resolveOutputPath cwd answers options
  let existing := filesUnder fs0 outputPath
  if !existing.isEmpty && !options.force then
    ⟨outputPath, true, [], [], [], fs0, 0⟩
  else
    let ct := copyTemplate mm fs0 template.path outputPath template.exclude
      options.dryRun
    let st := runSteps mm env template.path outputPath
      (mergeSpread template.values answers) answers options.dryRun
      template.steps ct.1 0
    ⟨outputPath, false, ct.2, st.decisions, st.execed, st.fs, st.uuidK⟩

end PQS.Pipeline

namespace PQS

/-! Generic facts about the character-list helpers, used by several of
the claim proofs below. -/

theorem takeWhile_append_stop {p : Char → Bool} {l : List Char} (x : Char)
    (r : List Char) (hl : ∀ c ∈ l, p c = true) (hx : p x = false) :
    (l ++ x :: r).takeWhile p = l := by
  induction l with
  | nil => simp [List.takeWhile_cons, hx]
  | cons a l ih =>
    have ha : p a = true := hl a (by simp)
    simp only [List.cons_append, List.takeWhile_cons, ha, if_true]
    rw [ih (fun c hc => hl c (by simp [hc]))]

theorem dropWhile_append_stop {p : Char → Bool} {l : List Char} (x : Char)
    (r : List Char) (hl : ∀ c ∈ l, p c = true) (hx : p x = false) :
    (l ++ x :: r).dropWhile p = x :: r := by
  induction l with
  | nil => simp [List.dropWhile_cons, hx]
  | cons a l ih =>
    have ha : p a = true := hl a (by simp)
    simp only [List.cons_append, List.dropWhile_cons, ha, if_true]
    exact ih (fun c hc => hl c (by simp [hc]))

theorem takeWhile_all {p : Char → Bool} {l : List Char}
    (hl : ∀ c ∈ l, p c = true) : l.takeWhile p = l := by
  induction l with
  | nil => simp
  | cons a l ih =>
    have ha : p a = true := hl a (by simp)
    simp [List.takeWhile_cons, ha, ih (fun c hc => hl c (by simp [hc]))]

theorem isPrefixOf_append_self (p r : List Char) :
    p.isPrefixOf (p ++ r) = true := by
  induction p with
  | nil => simp [List.isPrefixOf]
  | cons a p ih => simp [List.isPrefixOf, ih]

theorem stripLit_append (p r : List Char) : stripLit p (p ++ r) = some r := by
  simp [stripLit, isPrefixOf_append_self, List.drop_left]

theorem isPrefixOf_true_decomp {p l : List Char}
    (h : p.isPrefixOf l = true) : l = p ++ l.drop p.length := by
  induction p generalizing l with
  | nil => simp
  | cons a p ih =>
    cases l with
    | nil => simp [List.isPrefixOf] at h
    | cons b l' =>
      simp only [List.isPrefixOf, Bool.and_eq_true, beq_iff_eq] at h
      obtain ⟨rfl, h2⟩ := h
      simpa using ih h2

theorem listInfix_of_prefix {sub l : List Char}
    (h : sub.isPrefixOf l = true) : listInfix sub l = true := by
  cases l with
  | nil =>
    cases sub with
    | nil => simp [listInfix]
    | cons a r => simp [List.isPrefixOf] at h
  | cons c rest => simp [listInfix, h]

theorem listInfix_of_middle (pre sub post : List Char) :
    listInfix sub (pre ++ (sub ++ post)) = true := by
  induction pre with
  | nil => exact listInfix_of_prefix (by simp [isPrefixOf_append_self sub post])
  | cons a pre ih => simp [listInfix, ih]

end PQS

namespace PQS.Claims

open PQS.GitUtils PQS.Cache PQS.Subst PQS.Pipeline

/-- C6: every location string containing `//` (in particular every string
beginning with `http://` or `https://`) fails `validateGitUrl`, and
consequently `isAvailable` is false for every HTTPS remote template
source (a location classified remote by `isGitUrl`), regardless of git
availability or filesystem state. -/
theorem c6_theorem :
    (∀ s : String, jsIncludes s "//" = true →
      validateGitUrl s = false) ∧
    (∀ s : String,
      (jsStartsWith s "http://" || jsStartsWith s "https://") = true →
      jsIncludes s "//" = true) ∧
    (∀ (s homedir : String) (gitAvailable : Bool)
      (pathExists : String → Bool),
      isGitUrl s = true →
      (jsStartsWith s "http://" || jsStartsWith s "https://") = true →
      PQS.TemplateSource.isAvailable homedir gitAvailable pathExists s =
        false) := by
  have part1 : ∀ s : String, jsIncludes s "//" = true →
      validateGitUrl s = false := by
    intro s h
    unfold validateGitUrl
    by_cases hg : isGitUrl s <;> simp [hg, h]
  have part2 : ∀ s : String,
      (jsStartsWith s "http://" || jsStartsWith s "https://") = true →
      jsIncludes s "//" = true := by
    intro s h
    rcases Bool.or_eq_true_iff.mp h with h1 | h1
    · have hd := isPrefixOf_true_decomp (p := "http://".data)
        (l := s.data) h1
      unfold jsIncludes
      rw [hd]
      have hsplit : "http://".data ++ s.data.drop ("http://".data).length =
          ['h', 't', 't', 'p', ':'] ++
            ("//".data ++ s.data.drop ("http://".data).length) := rfl
      rw [hsplit]
      exact listInfix_of_middle _ _ _
    · have hd := isPrefixOf_true_decomp (p := "https://".data)
        (l := s.data) h1
      unfold jsIncludes
      rw [hd]
      have hsplit : "https://".data ++ s.data.drop ("https://".data).length =
          ['h', 't', 't', 'p', 's', ':'] ++
            ("//".data ++ s.data.drop ("https://".data).length) := rfl
      rw [hsplit]
      exact listInfix_of_middle _ _ _
  refine ⟨part1, part2, ?_⟩
  intro s homedir gitAvailable pathExists hg hstart
  unfold PQS.TemplateSource.isAvailable
  rw [hg]
  simp [part1 s (part2 s hstart)]

/-- C6 witness: the concrete HTTPS GitHub URL is classified remote, yet
`validateGitUrl` rejects it and `isAvailable` reports false even with git
installed and an always-existing filesystem. -/
theorem c6_witness :
    isGitUrl "https://github.com/user/repo" = true ∧
    validateGitUrl "https://github.com/user/repo" = false ∧
    PQS.TemplateSource.isAvailable "~" true (fun _ => true)
      "https://github.com/user/repo" = false := by
  refine ⟨by decide, c6_theorem.1 _ (by decide), ?_⟩
  exact c6_theorem.2.2 "https://github.com/user/repo" "~" true (fun _ => true)
    (by decide) (by decide)

end PQS.Claims

namespace PQS.Claims

open PQS.GitUtils PQS.Cache PQS.Subst PQS.Pipeline

/-- C7: with `force = false`, a validated URL, git available, and an
existing cache entry whose directory exists, `cloneOrGetCached` returns
the cached path with an empty mutation trace — no clone, no removal, no
index write — even when the entry is stale under the default 7-day
threshold.  Staleness alone never triggers removal or re-fetch. -/
theorem c7_theorem (hash : String → String) (st : CacheState) (url : String)
    (e : CacheEntry)
    (hv : validateGitUrl url = true)
    (hentry : getCacheInfo hash st url = some e)
    (hstale : isCacheStale hash st url 7 = true) :
    cloneOrGetCached hash true st url false =
      .ok (getCachePath hash url, ([] : List GitAction)) := by
  unfold cloneOrGetCached
  simp [hv, hentry]

/-- An md5 stand-in for the C7 witness scenario. -/
def c7hash : String → String := fun _ => "12345678"

/-- The cached entry of the C7 witness scenario: last updated at epoch 0. -/
def c7entry : CacheEntry :=
  { url := "git@github.com:user/repo.git", branch := none, lastUpdated := 0,
    host := "github.com", owner := "user", name := "repo" }

/-- The C7 witness state: the entry is in the index, its directory
exists, and the clock reads 10 days (in milliseconds) after the entry's
timestamp. -/
def c7state : CacheState :=
  { index := [(generateCacheKey c7hash "git@github.com:user/repo.git",
      c7entry)],
    dirs := [getCachePath c7hash "git@github.com:user/repo.git"],
    now := 864000000 }

/-- C7 witness: the concrete 10-day-old entry is stale under the default
7-day threshold, yet the ordinary read returns the cached path with no
mutations. -/
theorem c7_witness :
    isCacheStale c7hash c7state "git@github.com:user/repo.git" 7 = true ∧
    cloneOrGetCached c7hash true c7state "git@github.com:user/repo.git"
      false =
      .ok (getCachePath c7hash "git@github.com:user/repo.git",
        ([] : List GitAction)) := by
  refine ⟨by decide, ?_⟩
  exact c7_theorem c7hash c7state "git@github.com:user/repo.git" c7entry
    (by decide) (by decide) (by decide)

/-- A minimatch stand-in that matches a pattern only against the
identical literal path — exactly minimatch's behaviour on patterns with
no glob metacharacters. -/
def litMatcher : Matcher := fun pattern file => pattern == file

/-- A substitution environment with inert date and uuid capabilities,
for scenarios that never reach the `DATE`/`UUID` branches. -/
def testEnv : SubstEnv := ⟨fun _ => "", fun _ => ""⟩

/-- C1 (code bug): a `replace` step whose `condition` evaluates to false
is *not* skipped — the step loop and `processReplaceStep` never consult a
replace step's condition, so the step reads and rewrites the matched file
(here `/out/a.txt` is rewritten from the raw token to `V`).  For
contrast, a `command` step with the same false condition is skipped and
executes nothing, as the claim demands. -/
theorem c1_evaluation :
    (runSteps litMatcher testEnv "/t" "/out" [("x", JsVal.str "V")] [] false
      [Step.replace none (some (fun _ => false)) ["a.txt"]]
      [("/out/a.txt", "\x7b\x7bPQS:x\x7d\x7d")] 0).fs =
      [("/out/a.txt", "V")] ∧
    (runSteps litMatcher testEnv "/t" "/out" [] [] false
      [Step.command none (some (fun _ => false)) "npm install"] [] 0).execed
      = [] ∧
    (runSteps litMatcher testEnv "/t" "/out" [] [] false
      [Step.command none (some (fun _ => false)) "npm install"] [] 0).decisions
      = [StepDecision.commandSkipped] := by
  refine ⟨rfl, rfl, rfl⟩

/-- The prompt capability of the C2 scenario: the first question is
answered `false`, any other question `"answered"`. -/
def c2oracle : PromptOracle :=
  ⟨fun q => if q.name == "first" then JsVal.boolean false
    else JsVal.str "answered"⟩

/-- The first C2 question: a plain confirm. -/
def c2q1 : Question := { qtype := "confirm", name := "first", message := "First?" }

/-- The second C2 question, gated on the first answer being `true`
(`condition: answers => answers.first === true`). -/
def c2q2 : Question :=
  { qtype := "input", name := "second", message := "Second?",
    condition := some (fun ans =>
      match lookupVal ans "first" with
      | some (JsVal.boolean true) => true
      | _ => false) }

/-- C2 (code bug): `askQuestions` never evaluates a question's
`condition`.  With the first answer `false` the second question's
condition is false, yet the question is still prompted and its key is
present in the returned answers. -/
theorem c2_evaluation :
    askQuestions c2oracle [c2q1, c2q2] [] =
      .ok ([("first", JsVal.boolean false), ("second", JsVal.str "answered")],
        ["first", "second"]) ∧
    (c2q2.condition.getD (fun _ => true)) [("first", JsVal.boolean false)] =
      false := by
  refine ⟨rfl, by decide⟩

/-- A substitution environment whose uuid stream is the `A` family. -/
def c4envA : SubstEnv := ⟨fun _ => "2024-01-01", fun k => "uuid-A-" ++ toString k⟩

/-- A second, different substitution environment (a distinct run would
draw different random uuids). -/
def c4envB : SubstEnv := ⟨fun _ => "2025-12-31", fun k => "uuid-B-" ++ toString k⟩

/-- Two occurrences of the same fixed name, as one content string. -/
def c4content : String :=
  "\x7b\x7bPQS:UUID_FIXED(a)\x7d\x7d \x7b\x7bPQS:UUID_FIXED(a)\x7d\x7d"

/-- C4 (code bug): `performSubstitutions` implements no `UUID_FIXED`
handler — the transformation name is neither `DATE` nor `UUID`, the
argument `a` is undefined in the values, and the direct lookup fails, so
both occurrences are left verbatim.  In particular two distinct runs
(different uuid streams) produce the *same* output for the same fixed
name, and no identifier is ever generated. -/
theorem c4_evaluation :
    performSubstitutions c4envA c4content [] = c4content ∧
    performSubstitutions c4envB c4content [] = c4content := by
  refine ⟨rfl, rfl⟩

/-- A block-conditional content: `{{#PQS:flag}}Hello{{/PQS:flag}}`. -/
def c5content : String :=
  "\x7b\x7b#PQS:flag\x7d\x7dHello\x7b\x7b/PQS:flag\x7d\x7d"

/-- C5 (code bug): the substitution engine has no block-conditional
pre-pass.  The `{{#PQS:...}}`/`{{/PQS:...}}` delimiters never match the
token regex, so whether `flag` is false or true the content is returned
verbatim: the body is not excluded when the condition is falsy, the body
is not isolated when it is truthy, and the delimiters are never removed. -/
theorem c5_evaluation :
    performSubstitutions testEnv c5content [("flag", JsVal.boolean false)] =
      c5content ∧
    performSubstitutions testEnv c5content [("flag", JsVal.boolean true)] =
      c5content ∧
    c5content ≠ "" ∧
    c5content ≠ "Hello" := by
  refine ⟨rfl, rfl, by decide, by decide⟩

end PQS.Claims

namespace PQS.Claims

open PQS.GitUtils PQS.Cache PQS.Subst PQS.Pipeline

theorem length_dropWhile_le (p : Char → Bool) (l : List Char) :
    (l.dropWhile p).length ≤ l.length := by
  induction l with
  | nil => simp
  | cons a l ih =>
    by_cases h : p a <;> simp [List.dropWhile_cons, h] <;> omega

/-- The fuel of `camelCoreF` is irrelevant once it covers the input
length. -/
theorem camelCoreF_fuel_eq :
    ∀ (f : Nat) (cs : List Char), cs.length ≤ f →
    ∀ (g : Nat), cs.length ≤ g → camelCoreF f cs = camelCoreF g cs := by
  intro f
  induction f with
  | zero =>
    intro cs h g hg
    cases cs with
    | nil => cases g <;> rfl
    | cons c rest => simp at h
  | succ f ih =>
    intro cs h g hg
    cases cs with
    | nil => cases g <;> rfl
    | cons c rest =>
      cases g with
      | zero => simp at hg
      | succ g' =>
        simp only [camelCoreF]
        by_cases hsep : isSep c = true
        · rw [if_pos hsep, if_pos hsep]
          cases hq : rest.dropWhile isSep with
          | nil => rfl
          | cons d rest2 =>
            have hlen : rest2.length + 1 ≤ rest.length := by
              have := length_dropWhile_le isSep rest
              rw [hq] at this
              simpa using this
            simp at h hg
            dsimp only
            rw [ih rest2 (by omega) g' (by omega)]
        · rw [if_neg hsep, if_neg hsep]
          simp at h hg
          rw [ih rest (by omega) g' (by omega)]

/-- One-step unfolding of `camelCoreF` at a non-separator head. -/
theorem camelCoreF_cons_not_sep {c : Char} {f : Nat} {rest : List Char}
    (hc : isSep c = false) :
    camelCoreF (f + 1) (c :: rest) = c :: camelCoreF f rest := by
  simp [camelCoreF, hc]

/-- One-step unfolding of `camelCoreF` at a separator head. -/
theorem camelCoreF_cons_sep {c : Char} {f : Nat} {rest : List Char}
    (hc : isSep c = true) :
    camelCoreF (f + 1) (c :: rest) =
      match rest.dropWhile isSep with
      | [] => []
      | d :: rest2 => Char.toUpper d :: camelCoreF f rest2 := by
  simp [camelCoreF, hc]

/-- Separator-free text passes through `camelCoreF` unchanged: the CAMEL
transformation never lower-cases anything. -/
theorem camelCoreF_sep_free :
    ∀ (f : Nat) (l : List Char), l.length ≤ f →
    (∀ c ∈ l, isSep c = false) → camelCoreF f l = l := by
  intro f
  induction f with
  | zero =>
    intro l h _
    cases l with
    | nil => rfl
    | cons c rest => simp at h
  | succ f ih =>
    intro l h hfree
    cases l with
    | nil => rfl
    | cons c rest =>
      have hc : isSep c = false := hfree c (by simp)
      rw [camelCoreF_cons_not_sep hc]
      simp at h
      rw [ih rest (by omega) (fun d hd => hfree d (by simp [hd]))]

/-- A separator-free prefix is copied verbatim by `camelCoreF`, the scan
continuing on the remainder with correspondingly reduced fuel. -/
theorem camelCoreF_append_free :
    ∀ (l : List Char) (f : Nat) (tail : List Char),
    (∀ c ∈ l, isSep c = false) → (l ++ tail).length ≤ f →
    camelCoreF f (l ++ tail) = l ++ camelCoreF (f - l.length) tail := by
  intro l
  induction l with
  | nil => intro f tail _ _; simp
  | cons a l ih =>
    intro f tail hfree h
    have ha : isSep a = false := hfree a (by simp)
    cases f with
    | zero => simp at h
    | succ f =>
      rw [List.cons_append, camelCoreF_cons_not_sep ha]
      simp only [List.length_append, List.length_cons] at h
      rw [ih f tail (fun d hd => hfree d (by simp [hd])) (by simp; omega)]
      simp

/-- A maximal separator run followed by a non-separator character is
replaced by the upper-cased character. -/
theorem camelCoreF_run :
    ∀ (s0 : Char) (seps : List Char) (f : Nat) (d : Char) (r : List Char),
    isSep s0 = true → (∀ c ∈ seps, isSep c = true) → isSep d = false →
    (s0 :: seps ++ d :: r).length ≤ f + 1 →
    camelCoreF (f + 1) (s0 :: seps ++ d :: r) =
      Char.toUpper d :: camelCoreF f r := by
  intro s0 seps f d r hs0 hseps hd _
  rw [List.cons_append, camelCoreF_cons_sep hs0]
  have hdrop : List.dropWhile isSep (seps ++ d :: r) = d :: r :=
    PQS.dropWhile_append_stop d r hseps hd
  rw [hdrop]

end PQS.Claims

namespace PQS.Claims

open PQS.Subst

/-- C9 counterexample: the claim says CAMEL lowercases the first run of
characters, which would send `"My Project"` to `"myProject"`; the code's
CAMEL never lowercases, producing `"MyProject"`. -/
theorem c9_counterexample :
    transformText "My Project" "CAMEL" = "MyProject" ∧
    ("MyProject" : String) ≠ "myProject" := by
  exact ⟨rfl, by decide⟩

/-- C9 as amended: CAMEL removes each separator run (`-`, `_`,
whitespace) and upper-cases the first character following it, leaving all
other characters — including a leading upper-case first run — unchanged
(no lowercasing); PASCAL is exactly CAMEL with the very first character
additionally upper-cased; and the claim's concrete examples hold. -/
theorem c9_theorem :
    (∀ text : String, transformText text "PASCAL" =
      ⟨pascalFix (transformText text "CAMEL").data⟩) ∧
    (∀ text : String, (∀ c ∈ text.data, isSep c = false) →
      transformText text "CAMEL" = text) ∧
    (∀ (l seps r : List Char) (s0 d : Char),
      (∀ c ∈ l, isSep c = false) → isSep s0 = true →
      (∀ c ∈ seps, isSep c = true) → isSep d = false →
      camelCore (l ++ (s0 :: seps) ++ (d :: r)) =
        l ++ Char.toUpper d :: camelCore r) ∧
    (transformText "my project name" "CAMEL" = "myProjectName" ∧
      transformText "my-project" "PASCAL" = "MyProject") := by
  refine ⟨fun text => rfl, ?_, ?_, by decide, by decide⟩
  · intro text hfree
    have h1 : transformText text "CAMEL" = ⟨camelCore text.data⟩ := rfl
    rw [h1]
    unfold camelCore
    rw [camelCoreF_sep_free text.data.length text.data le_rfl hfree]
  · intro l seps r s0 d hl hs0 hseps hd
    unfold camelCore
    rw [List.append_assoc]
    have hlen : (l ++ ((s0 :: seps) ++ (d :: r))).length =
        l.length + (seps.length + r.length + 1 + 1) := by
      simp
      omega
    rw [camelCoreF_append_free l _ ((s0 :: seps) ++ (d :: r)) hl le_rfl]
    have hfuel : (l ++ ((s0 :: seps) ++ (d :: r))).length - l.length =
        (seps.length + r.length + 1) + 1 := by
      rw [hlen]
      omega
    rw [hfuel]
    rw [camelCoreF_run s0 seps (seps.length + r.length + 1) d r hs0 hseps hd
      (by simp; omega)]
    rw [camelCoreF_fuel_eq (seps.length + r.length + 1) r (by omega)
      r.length le_rfl]

/-- C9 witness: the amended theorem applied at concrete inputs — a
separator-free string with a leading capital passes through CAMEL
unchanged, and a hyphen run upper-cases the following character. -/
theorem c9_witness :
    transformText "MyProject" "CAMEL" = "MyProject" ∧
    camelCore ("my".data ++ ('-' :: []) ++ ('p' :: "roject".data)) =
      "my".data ++ Char.toUpper 'p' :: camelCore "roject".data := by
  constructor
  · exact c9_theorem.2.1 "MyProject" (by decide)
  · exact c9_theorem.2.2.1 "my".data [] "roject".data '-' 'p'
      (by decide) (by decide) (by decide) (by decide)

end PQS.Claims

namespace PQS.Claims

open PQS.Subst

/-- String concatenation acts as list concatenation on the data. -/
theorem data_append (a b : String) : (a ++ b).data = a.data ++ b.data := rfl

/-- `substScanF` on an empty text returns immediately, for any fuel. -/
theorem substScanF_nil (env : SubstEnv) (values : ObjMap) (F k : Nat) :
    substScanF env values F [] k = ([], k) := by
  cases F <;> rfl

/-- A scan whose first position matches a token consuming the whole text
emits the callback output and finishes. -/
theorem substScan_token (env : SubstEnv) (values : ObjMap)
    {cs inner : List Char} (h : tryToken cs = some (inner, [])) (k : Nat) :
    substScan env values cs k =
      ((substCallback env values inner k).1,
        (substCallback env values inner k).2) := by
  unfold substScan
  cases cs with
  | nil => rw [show tryToken ([] : List Char) = none from rfl] at h; cases h
  | cons c rest =>
    simp only [List.length_cons, substScanF]
    rw [h]
    dsimp only
    rw [substScanF_nil]
    simp

/-- `tryToken` on a well-formed single-token text captures the inner text
exactly and leaves nothing. -/
theorem tryToken_exact {inner : List Char} (hne : inner ≠ [])
    (hin : ∀ c ∈ inner, c ≠ closeBrace) :
    tryToken (tokenOpen ++ (inner ++ [closeBrace, closeBrace])) =
      some (inner, []) := by
  unfold tryToken
  rw [PQS.stripLit_append]
  dsimp only
  rw [PQS.takeWhile_append_stop closeBrace [closeBrace]
    (fun c hc => by simp [hin c hc]) (by simp)]
  rw [PQS.dropWhile_append_stop closeBrace [closeBrace]
    (fun c hc => by simp [hin c hc]) (by simp)]
  rw [if_pos ⟨by simp, by simp, hne⟩]
  simp

/-- `parseTransform` on `t(arg)` with a word-character transform name and
a `)`-free argument captures the two components. -/
theorem parseTransform_exact (t arg : String) (ht0 : t.data ≠ [])
    (ht1 : ∀ c ∈ t.data, isWordChar c = true) (ha0 : arg.data ≠ [])
    (ha1 : ∀ c ∈ arg.data, c ≠ ')') :
    parseTransform (t.data ++ '(' :: (arg.data ++ [')'])) = some (t, arg) := by
  unfold parseTransform
  rw [PQS.takeWhile_append_stop '(' (arg.data ++ [')']) ht1 (by decide)]
  rw [PQS.dropWhile_append_stop '(' (arg.data ++ [')']) ht1 (by decide)]
  dsimp only
  rw [if_pos rfl]
  rw [PQS.takeWhile_append_stop ')' []
    (fun c hc => by simp [ha1 c hc]) (by simp)]
  rw [PQS.dropWhile_append_stop ')' []
    (fun c hc => by simp [ha1 c hc]) (by simp)]
  dsimp only
  rw [if_pos ⟨rfl, ht0, ha0⟩]

/-- `transformText` with a transformation outside the recognized set is
the identity (the switch's default branch). -/
theorem transformText_default (text t : String)
    (h : jsToUpper t ∉ (["UPPER", "LOWER", "CAMEL", "KEBAB", "SNAKE",
      "PASCAL", "TITLE", "SLUG"] : List String)) :
    transformText text t = text := by
  unfold transformText
  have h1 : ¬(jsToUpper t = "UPPER") := fun he => h (by rw [he]; simp)
  have h2 : ¬(jsToUpper t = "LOWER") := fun he => h (by rw [he]; simp)
  have h3 : ¬(jsToUpper t = "CAMEL") := fun he => h (by rw [he]; simp)
  have h4 : ¬(jsToUpper t = "KEBAB") := fun he => h (by rw [he]; simp)
  have h5 : ¬(jsToUpper t = "SNAKE") := fun he => h (by rw [he]; simp)
  have h6 : ¬(jsToUpper t = "PASCAL") := fun he => h (by rw [he]; simp)
  have h7 : ¬(jsToUpper t = "TITLE") := fun he => h (by rw [he]; simp)
  have h8 : ¬(jsToUpper t = "SLUG") := fun he => h (by rw [he]; simp)
  rw [if_neg h1, if_neg h2, if_neg h3, if_neg h4, if_neg h5, if_neg h6,
    if_neg h7, if_neg h8]

/-- C10: a token `{{PQS:T(id)}}` whose transform `T` is neither `DATE`
nor `UUID` nor (case-folded) one of the eight recognized transform names
substitutes to the raw string form of the defined value `id`, unchanged —
`transformText`'s default branch returns its input — rather than leaving
the token verbatim or failing. -/
theorem c10_theorem (env : SubstEnv) (t arg : String) (values : ObjMap)
    (v : JsVal)
    (ht0 : t.data ≠ [])
    (ht1 : ∀ c ∈ t.data, isWordChar c = true)
    (ht2 : t ≠ "DATE") (ht3 : t ≠ "UUID")
    (ht4 : jsToUpper t ∉ (["UPPER", "LOWER", "CAMEL", "KEBAB", "SNAKE",
      "PASCAL", "TITLE", "SLUG"] : List String))
    (ha0 : arg.data ≠ [])
    (ha1 : ∀ c ∈ arg.data, c ≠ ')' ∧ c ≠ closeBrace)
    (hv : lookupVal values arg = some v) :
    performSubstitutions env
      ("\x7b\x7bPQS:" ++ t ++ "(" ++ arg ++ ")\x7d\x7d") values =
      jsString v := by
  have hwordNotBrace : ∀ c ∈ t.data, c ≠ closeBrace := by
    intro c hc he
    have := ht1 c hc
    rw [he] at this
    exact absurd this (by decide)
  have hinner : ∀ c ∈ t.data ++ '(' :: (arg.data ++ [')']), c ≠ closeBrace := by
    intro c hc he
    subst he
    rcases List.mem_append.mp hc with h | h
    · exact hwordNotBrace closeBrace h rfl
    · rcases List.mem_cons.mp h with h2 | h2
      · exact absurd h2 (by decide)
      · rcases List.mem_append.mp h2 with h3 | h3
        · exact (ha1 closeBrace h3).2 rfl
        · rcases List.mem_cons.mp h3 with h4 | h4
          · exact absurd h4 (by decide)
          · simp at h4
  have hinner_ne : t.data ++ '(' :: (arg.data ++ [')']) ≠ [] := by
    cases t.data <;> simp
  have hdata : ("\x7b\x7bPQS:" ++ t ++ "(" ++ arg ++ ")\x7d\x7d").data =
      tokenOpen ++
        ((t.data ++ '(' :: (arg.data ++ [')'])) ++
          [closeBrace, closeBrace]) := by
    rw [data_append, data_append, data_append, data_append]
    have hp : "(".data = ['('] := rfl
    have hs : ")\x7d\x7d".data = [')', closeBrace, closeBrace] := rfl
    rw [hp, hs]
    simp [tokenOpen]
  have hcb : substCallback env values (t.data ++ '(' :: (arg.data ++ [')']))
      0 = ((transformText (jsString v) t).data, 0) := by
    unfold substCallback
    rw [parseTransform_exact t arg ht0 ht1 ha0 (fun c hc => (ha1 c hc).1)]
    dsimp only
    rw [if_neg ht2, if_neg ht3, hv]
  unfold performSubstitutions performSubstitutionsK
  rw [hdata, substScan_token env values
    (tryToken_exact hinner_ne hinner) 0, hcb]
  rw [transformText_default (jsString v) t ht4]

end PQS.Claims

namespace PQS.Claims

open PQS.Subst

/-- C10 witness: the unrecognized transform `REVERSE` applied to a
defined value substitutes the raw value. -/
theorem c10_witness :
    performSubstitutions testEnv "\x7b\x7bPQS:REVERSE(name)\x7d\x7d"
      [("name", JsVal.str "value")] = "value" := by
  exact c10_theorem testEnv "REVERSE" "name" [("name", JsVal.str "value")]
    (JsVal.str "value") (by decide) (by decide) (by decide) (by decide)
    (by decide) (by decide) (by decide) rfl

end PQS.Claims

namespace PQS.Claims

open PQS.GitUtils

/-- Inversion of `stripLit`. -/
theorem stripLit_some {p cs r : List Char} (h : PQS.stripLit p cs = some r) :
    cs = p ++ r := by
  unfold PQS.stripLit at h
  split at h
  · rename_i hp
    cases h
    exact PQS.isPrefixOf_true_decomp hp
  · cases h

/-- Inversion of `stripScheme`. -/
theorem stripScheme_some {cs r : List Char} (h : stripScheme cs = some r) :
    cs = "https://".data ++ r ∨ cs = "http://".data ++ r := by
  unfold stripScheme at h
  cases hs : PQS.stripLit "https://".data cs with
  | some r2 =>
    rw [hs] at h
    cases h
    exact .inl (stripLit_some hs)
  | none =>
    rw [hs] at h
    exact .inr (stripLit_some h)

/-- Inversion of `matchTwoSegs`: the text is exactly two nonempty
repo-character segments around one slash. -/
theorem matchTwoSegs_decomp {cs : List Char} (h : matchTwoSegs cs = true) :
    ∃ a b, a ≠ [] ∧ a.all isRepoChar = true ∧ b ≠ [] ∧
      b.all isRepoChar = true ∧ cs = a ++ '/' :: b := by
  unfold matchTwoSegs at h
  cases hq : cs.dropWhile (fun c => c ≠ '/') with
  | nil => rw [hq] at h; cases h
  | cons c0 b =>
    rw [hq] at h
    dsimp only at h
    simp only [Bool.and_eq_true, decide_eq_true_eq, Bool.not_eq_true'] at h
    obtain ⟨⟨⟨⟨hc0, ha0⟩, ha⟩, hb0⟩, hb⟩ := h
    refine ⟨cs.takeWhile (fun c => c ≠ '/'), b, List.isEmpty_eq_false.mp ha0,
      ha, List.isEmpty_eq_false.mp hb0, hb, ?_⟩
    subst hc0
    rw [← hq]
    exact (List.takeWhile_append_dropWhile _ cs).symm

/-- A URL matching the hosted-repository pattern contains no `#`. -/
theorem matchNormHosted_noHash {cs : List Char}
    (h : matchNormHosted cs = true) : '#' ∉ cs := by
  unfold matchNormHosted at h
  cases hs : stripScheme cs with
  | none => rw [hs] at h; cases h
  | some r =>
    rw [hs] at h
    rw [List.any_eq_true] at h
    obtain ⟨host, hmem, hh⟩ := h
    cases hl : PQS.stripLit host.data r with
    | none => rw [hl] at hh; cases hh
    | some r2 =>
      rw [hl] at hh
      obtain ⟨a, b, _, ha, _, hb, hr2⟩ := matchTwoSegs_decomp hh
      have hr := stripLit_some hl
      intro hmm
      have hhost : '#' ∉ host.data := by
        simp only [normHostPrefixes, List.mem_cons, List.mem_singleton,
          List.not_mem_nil, or_false] at hmem
        rcases hmem with rfl | rfl | rfl | rfl | rfl | rfl <;> decide
      have hrepo : ∀ l : List Char, l.all isRepoChar = true → '#' ∉ l := by
        intro l hall hml
        have := List.all_eq_true.mp hall _ hml
        exact absurd this (by decide)
      have hinr : '#' ∉ r := by
        rw [hr]
        intro hx
        rcases List.mem_append.mp hx with hx | hx
        · exact hhost hx
        · rw [hr2] at hx
          rcases List.mem_append.mp hx with hx | hx
          · exact hrepo a ha hx
          · rcases List.mem_cons.mp hx with hx | hx
            · exact absurd hx (by decide)
            · exact hrepo b hb hx
      rcases stripScheme_some hs with hcs | hcs <;> rw [hcs] at hmm <;>
        rcases List.mem_append.mp hmm with hx | hx
      · exact absurd hx (by decide)
      · exact hinr hx
      · exact absurd hx (by decide)
      · exact hinr hx

/-- `beforeHash` is the identity on hash-free strings. -/
theorem beforeHash_id {s : String} (h : '#' ∉ s.data) : beforeHash s = s := by
  unfold beforeHash
  rw [PQS.takeWhile_all (fun c hc => by
    simp only [decide_eq_true_eq]
    intro he
    exact h (he ▸ hc))]

/-- `beforeHash` cuts exactly at an appended `#branch` fragment. -/
theorem beforeHash_cut {u br : String} (h : '#' ∉ u.data) :
    beforeHash (u ++ "#" ++ br) = u := by
  unfold beforeHash
  have hd : (u ++ "#" ++ br).data = u.data ++ '#' :: br.data := by
    rw [data_append, data_append]
    simp
  rw [hd]
  rw [PQS.takeWhile_append_stop '#' br.data (fun c hc => by
    simp only [decide_eq_true_eq]
    intro he
    exact h (he ▸ hc)) (by simp)]

/-- Appending a suffix makes `jsEndsWith` with that suffix true. -/
theorem jsEndsWith_append (u v : String) : jsEndsWith (u ++ v) v = true := by
  unfold jsEndsWith
  rw [data_append]
  simp only [List.length_append, Nat.add_sub_cancel]
  rw [List.drop_left]
  simp

end PQS.Claims

namespace PQS.Claims

open PQS.GitUtils

/-- C8: `normalizeGitUrl` is idempotent on every string; and for any
hosted-pattern base URL `u` (no trailing `.git`, hash-free by the
pattern), the four spellings `u`, `u.git`, `u#branch`, `u.git#branch`
all normalize to `u.git` and therefore produce the same cache key under
`generateCacheKey`, for any digest function. -/
theorem c8_theorem :
    (∀ x : String, normalizeGitUrl (normalizeGitUrl x) = normalizeGitUrl x) ∧
    (∀ (u b1 b2 : String) (hash : String → String),
      matchNormHosted u.data = true → jsEndsWith u ".git" = false →
      (normalizeGitUrl u = u ++ ".git" ∧
        normalizeGitUrl (u ++ ".git") = u ++ ".git" ∧
        normalizeGitUrl (u ++ "#" ++ b1) = u ++ ".git" ∧
        normalizeGitUrl (u ++ ".git#" ++ b2) = u ++ ".git") ∧
      (generateCacheKey hash (u ++ ".git") = generateCacheKey hash u ∧
        generateCacheKey hash (u ++ "#" ++ b1) = generateCacheKey hash u ∧
        generateCacheKey hash (u ++ ".git#" ++ b2) =
          generateCacheKey hash u)) := by
  have nogitHash : ∀ u : String, '#' ∉ u.data → '#' ∉ (u ++ ".git").data := by
    intro u h hm
    rw [data_append] at hm
    rcases List.mem_append.mp hm with hm | hm
    · exact h hm
    · exact absurd hm (by decide)
  have norm_of_nohash_end : ∀ u : String, '#' ∉ u.data →
      normalizeGitUrl (u ++ ".git") = u ++ ".git" := by
    intro u h
    simp only [normalizeGitUrl]
    rw [beforeHash_id (nogitHash u h), jsEndsWith_append]
    simp
  constructor
  · intro x
    have hnh : '#' ∉ (beforeHash x).data := by
      intro hm
      have hx : (beforeHash x).data = x.data.takeWhile
          (fun c => c ≠ '#') := rfl
      rw [hx] at hm
      have := List.mem_takeWhile_imp hm
      simp at this
    by_cases hc : (matchNormHosted (beforeHash x).data &&
        !jsEndsWith (beforeHash x) ".git") = true
    · have h1 : normalizeGitUrl x = beforeHash x ++ ".git" := by
        simp only [normalizeGitUrl]
        rw [if_pos hc]
      rw [h1, norm_of_nohash_end (beforeHash x) hnh]
    · have h1 : normalizeGitUrl x = beforeHash x := by
        simp only [normalizeGitUrl]
        rw [if_neg hc]
      rw [h1]
      simp only [normalizeGitUrl]
      rw [beforeHash_id hnh, if_neg hc]
  · intro u b1 b2 hash hm he
    have hnh : '#' ∉ u.data := matchNormHosted_noHash hm
    have n1 : normalizeGitUrl u = u ++ ".git" := by
      simp only [normalizeGitUrl]
      rw [beforeHash_id hnh, if_pos (by rw [hm, he]; rfl)]
    have n2 : normalizeGitUrl (u ++ ".git") = u ++ ".git" :=
      norm_of_nohash_end u hnh
    have n3 : normalizeGitUrl (u ++ "#" ++ b1) = u ++ ".git" := by
      simp only [normalizeGitUrl]
      rw [beforeHash_cut hnh, if_pos (by rw [hm, he]; rfl)]
    have hassoc : u ++ ".git#" ++ b2 = (u ++ ".git") ++ "#" ++ b2 := by
      apply String.ext
      rw [data_append, data_append, data_append, data_append]
      simp
    have n4 : normalizeGitUrl (u ++ ".git#" ++ b2) = u ++ ".git" := by
      rw [hassoc]
      simp only [normalizeGitUrl]
      rw [beforeHash_cut (nogitHash u hnh), jsEndsWith_append]
      simp
    refine ⟨⟨n1, n2, n3, n4⟩, ?_, ?_, ?_⟩ <;>
      simp only [generateCacheKey] <;> rw [n1]
    · rw [n2]
    · rw [n3]
    · rw [n4]

/-- C8 witness: the four concrete spellings of `user/repo` on GitHub
normalize identically and share one cache key. -/
theorem c8_witness :
    normalizeGitUrl (normalizeGitUrl "https://github.com/user/repo#x") =
      normalizeGitUrl "https://github.com/user/repo#x" ∧
    normalizeGitUrl "https://github.com/user/repo" =
      "https://github.com/user/repo" ++ ".git" ∧
    normalizeGitUrl ("https://github.com/user/repo" ++ "#" ++ "main") =
      "https://github.com/user/repo" ++ ".git" ∧
    generateCacheKey (fun _ => "d0d0d0d0")
        ("https://github.com/user/repo" ++ ".git#" ++ "dev") =
      generateCacheKey (fun _ => "d0d0d0d0") "https://github.com/user/repo" := by
  have h := c8_theorem.2 "https://github.com/user/repo" "main" "dev"
    (fun _ => "d0d0d0d0") (by decide) (by decide)
  exact ⟨c8_theorem.1 "https://github.com/user/repo#x",
    h.1.1, h.1.2.2.1, h.2.2.2⟩

end PQS.Claims

namespace PQS.Claims

open PQS.Subst PQS.Pipeline

/-- The C3 counterexample template: one file and one unconditional
replace step over `a.txt`. -/
def c3template : Template :=
  { name := "t", path := "/t", values := [], exclude := [],
    steps := [Step.replace none none ["a.txt"]] }

/-- The C3 counterexample filesystem: the template contains `a.txt`. -/
def c3fs : Fs := [("/t/a.txt", "hi")]

/-- C3 counterexample: with the same template, destination and answers,
the dry run reports the replace step would process *no* files (its glob
resolves against the not-yet-populated output directory), while the real
run processes `a.txt` — the reported preview differs from what the real
run does, refuting decision parity. -/
theorem c3_counterexample :
    (createProjectCore litMatcher testEnv "/cwd" c3template []
      ⟨some "/out", false, true⟩ c3fs).decisions =
      [StepDecision.replaceFiles []] ∧
    (createProjectCore litMatcher testEnv "/cwd" c3template []
      ⟨some "/out", false, false⟩ c3fs).decisions =
      [StepDecision.replaceFiles ["a.txt"]] ∧
    [StepDecision.replaceFiles []] ≠
      [StepDecision.replaceFiles ["a.txt"]] := by
  exact ⟨rfl, rfl, by decide⟩

/-- Agreement of one dry-run decision with the corresponding real-run
decision: replace-step file lists are exempt (the dry run resolves its
globs against the un-materialized output directory), every other decision
must be identical. -/
def decisionAgrees : StepDecision → StepDecision → Bool
  | .replaceFiles _, .replaceFiles _ => true
  | a, b => decide (a = b)

/-- Pointwise agreement of two decision sequences. -/
def decisionsAgree : List StepDecision → List StepDecision → Bool
  | [], [] => true
  | a :: as, b :: bs => decisionAgrees a b && decisionsAgree as bs
  | _, _ => false

theorem decisionAgrees_refl (a : StepDecision) : decisionAgrees a a = true := by
  cases a <;> simp [decisionAgrees]

/-- A dry-run step loop never touches the filesystem and never hands a
command to the shell. -/
theorem runSteps_dry (mm : Matcher) (env : SubstEnv) (tp op : String)
    (rv ans : ObjMap) :
    ∀ (steps : List Step) (fs : Fs) (k : Nat),
      (runSteps mm env tp op rv ans true steps fs k).fs = fs ∧
      (runSteps mm env tp op rv ans true steps fs k).execed = [] := by
  intro steps
  induction steps with
  | nil => intro fs k; exact ⟨rfl, rfl⟩
  | cons step rest ih =>
    intro fs k
    cases step with
    | replace d c files =>
      have h1 : (processReplaceStep mm env fs k files op rv true).1 = fs := rfl
      have h2 : (processReplaceStep mm env fs k files op rv true).2.1 = k :=
        rfl
      simp only [runSteps]
      rw [h1, h2]
      exact ih fs k
    | command d c cmd =>
      have h1 : (processCommandStep c cmd ans true).1 = [] := by
        unfold processCommandStep
        split <;> rfl
      simp only [runSteps]
      rw [h1]
      simp only [List.nil_append]
      exact ih fs k
    | copy d c source dest excl =>
      have h1 : (processCopyStep mm fs tp op c source dest excl ans true).1 =
          fs := by
        unfold processCopyStep
        split <;> rfl
      simp only [runSteps]
      rw [h1]
      exact ih fs k

/-- The command-step decision depends only on the condition, the answers
and the command string — not on dry-run mode. -/
theorem processCommandStep_decision (c : Option (ObjMap → Bool))
    (cmd : String) (ans : ObjMap) (dr : Bool) :
    (processCommandStep c cmd ans dr).2 =
      if condBlocks c ans then .commandSkipped else .commandRun cmd := by
  unfold processCommandStep
  split
  · rfl
  · cases dr <;> rfl

/-- The copy-step decision likewise depends only on the step data and the
answers. -/
theorem processCopyStep_decision (mm : Matcher) (fs : Fs) (tp op : String)
    (c : Option (ObjMap → Bool)) (source : String) (dest : Option String)
    (excl : List String) (ans : ObjMap) (dr : Bool) :
    (processCopyStep mm fs tp op c source dest excl ans dr).2 =
      if condBlocks c ans then .copySkipped
      else .copyPlan source (dest.getD source) excl := by
  unfold processCopyStep
  split
  · rfl
  · cases dr
    · dsimp only
      rw [if_neg (by decide : ¬(false = true))]
      split
      · rfl
      · split <;> rfl
    · rfl

/-- Dry-run and real-run step loops produce agreeing decision sequences,
from any pair of filesystem states and uuid counters: conditions and
command strings coincide, and only replace-step file lists may differ. -/
theorem runSteps_parity (mm : Matcher) (env : SubstEnv) (tp op : String)
    (rv ans : ObjMap) :
    ∀ (steps : List Step) (fsd fsr : Fs) (kd kr : Nat),
      decisionsAgree
        (runSteps mm env tp op rv ans true steps fsd kd).decisions
        (runSteps mm env tp op rv ans false steps fsr kr).decisions = true := by
  intro steps
  induction steps with
  | nil => intro fsd fsr kd kr; rfl
  | cons step rest ih =>
    intro fsd fsr kd kr
    cases step with
    | replace d c files =>
      simp only [runSteps]
      have hd : (processReplaceStep mm env fsd kd files op rv true).2.2 =
          .replaceFiles (files.foldl (fun acc filePattern =>
            acc ++ (filesUnder fsd op).filter
              (fun f => mm filePattern f)) []) := rfl
      have hr : (processReplaceStep mm env fsr kr files op rv false).2.2 =
          .replaceFiles (files.foldl (fun acc filePattern =>
            acc ++ (filesUnder fsr op).filter
              (fun f => mm filePattern f)) []) := by
        unfold processReplaceStep
        rfl
      rw [hd, hr]
      simp only [decisionsAgree, decisionAgrees]
      rw [ih]
      rfl
    | command d c cmd =>
      simp only [runSteps]
      rw [processCommandStep_decision c cmd ans true,
        processCommandStep_decision c cmd ans false]
      simp only [decisionsAgree]
      rw [decisionAgrees_refl, ih]
      rfl
    | copy d c source dest excl =>
      simp only [runSteps]
      rw [processCopyStep_decision mm fsd tp op c source dest excl ans true,
        processCopyStep_decision mm fsr tp op c source dest excl ans false]
      simp only [decisionsAgree]
      rw [decisionAgrees_refl, ih]
      rfl

end PQS.Claims

namespace PQS.Claims

open PQS.Subst PQS.Pipeline

/-- C3 as amended: a dry-run invocation of project creation performs no
filesystem mutation and no process execution, and its output path, guard
decision, copy-phase file list, step conditions, command strings and copy
plans all coincide with the real run's; only replace-step file lists may
differ, because the dry run resolves replace globs against the
un-materialized output directory (see the counterexample). -/
theorem c3_theorem (mm : Matcher) (env : SubstEnv) (cwd : String)
    (template : Template) (answers : ObjMap) (output : Option String)
    (force : Bool) (fs0 : Fs) :
    (createProjectCore mm env cwd template answers
      ⟨output, force, true⟩ fs0).fs = fs0 ∧
    (createProjectCore mm env cwd template answers
      ⟨output, force, true⟩ fs0).execed = [] ∧
    (createProjectCore mm env cwd template answers
      ⟨output, force, true⟩ fs0).outputPath =
      (createProjectCore mm env cwd template answers
        ⟨output, force, false⟩ fs0).outputPath ∧
    (createProjectCore mm env cwd template answers
      ⟨output, force, true⟩ fs0).guardFailed =
      (createProjectCore mm env cwd template answers
        ⟨output, force, false⟩ fs0).guardFailed ∧
    (createProjectCore mm env cwd template answers
      ⟨output, force, true⟩ fs0).copiedFiles =
      (createProjectCore mm env cwd template answers
        ⟨output, force, false⟩ fs0).copiedFiles ∧
    decisionsAgree
      (createProjectCore mm env cwd template answers
        ⟨output, force, true⟩ fs0).decisions
      (createProjectCore mm env cwd template answers
        ⟨output, force, false⟩ fs0).decisions = true := by
  have hout : resolveOutputPath cwd answers ⟨output, force, true⟩ =
      resolveOutputPath cwd answers ⟨output, force, false⟩ := rfl
  by_cases hg : (!(filesUnder fs0
      (resolveOutputPath cwd answers ⟨output, force, true⟩)).isEmpty &&
      !force) = true
  · have hg' : (!(filesUnder fs0
        (resolveOutputPath cwd answers ⟨output, force, false⟩)).isEmpty &&
        !force) = true := by rw [← hout]; exact hg
    have hd_eq : createProjectCore mm env cwd template answers
        ⟨output, force, true⟩ fs0 =
        ⟨resolveOutputPath cwd answers ⟨output, force, true⟩, true,
          [], [], [], fs0, 0⟩ := by
      simp only [createProjectCore]
      rw [if_pos hg]
    have hr_eq : createProjectCore mm env cwd template answers
        ⟨output, force, false⟩ fs0 =
        ⟨resolveOutputPath cwd answers ⟨output, force, false⟩, true,
          [], [], [], fs0, 0⟩ := by
      simp only [createProjectCore]
      rw [if_pos hg']
    rw [hd_eq, hr_eq, hout]
    exact ⟨rfl, rfl, rfl, rfl, rfl, rfl⟩
  · have hg' : ¬((!(filesUnder fs0
        (resolveOutputPath cwd answers ⟨output, force, false⟩)).isEmpty &&
        !force) = true) := by rw [← hout]; exact hg
    have hd_eq : createProjectCore mm env cwd template answers
        ⟨output, force, true⟩ fs0 =
        ⟨resolveOutputPath cwd answers ⟨output, force, true⟩, false,
          (copyTemplate mm fs0 template.path
            (resolveOutputPath cwd answers ⟨output, force, true⟩)
            template.exclude true).2,
          (runSteps mm env template.path
            (resolveOutputPath cwd answers ⟨output, force, true⟩)
            (mergeSpread template.values answers) answers true
            template.steps
            (copyTemplate mm fs0 template.path
              (resolveOutputPath cwd answers ⟨output, force, true⟩)
              template.exclude true).1 0).decisions,
          (runSteps mm env template.path
            (resolveOutputPath cwd answers ⟨output, force, true⟩)
            (mergeSpread template.values answers) answers true
            template.steps
            (copyTemplate mm fs0 template.path
              (resolveOutputPath cwd answers ⟨output, force, true⟩)
              template.exclude true).1 0).execed,
          (runSteps mm env template.path
            (resolveOutputPath cwd answers ⟨output, force, true⟩)
            (mergeSpread template.values answers) answers true
            template.steps
            (copyTemplate mm fs0 template.path
              (resolveOutputPath cwd answers ⟨output, force, true⟩)
              template.exclude true).1 0).fs,
          (runSteps mm env template.path
            (resolveOutputPath cwd answers ⟨output, force, true⟩)
            (mergeSpread template.values answers) answers true
            template.steps
            (copyTemplate mm fs0 template.path
              (resolveOutputPath cwd answers ⟨output, force, true⟩)
              template.exclude true).1 0).uuidK⟩ := by
      simp only [createProjectCore]
      rw [if_neg hg]
    have hr_eq : createProjectCore mm env cwd template answers
        ⟨output, force, false⟩ fs0 =
        ⟨resolveOutputPath cwd answers ⟨output, force, false⟩, false,
          (copyTemplate mm fs0 template.path
            (resolveOutputPath cwd answers ⟨output, force, false⟩)
            template.exclude false).2,
          (runSteps mm env template.path
            (resolveOutputPath cwd answers ⟨output, force, false⟩)
            (mergeSpread template.values answers) answers false
            template.steps
            (copyTemplate mm fs0 template.path
              (resolveOutputPath cwd answers ⟨output, force, false⟩)
              template.exclude false).1 0).decisions,
          (runSteps mm env template.path
            (resolveOutputPath cwd answers ⟨output, force, false⟩)
            (mergeSpread template.values answers) answers false
            template.steps
            (copyTemplate mm fs0 template.path
              (resolveOutputPath cwd answers ⟨output, force, false⟩)
              template.exclude false).1 0).execed,
          (runSteps mm env template.path
            (resolveOutputPath cwd answers ⟨output, force, false⟩)
            (mergeSpread template.values answers) answers false
            template.steps
            (copyTemplate mm fs0 template.path
              (resolveOutputPath cwd answers ⟨output, force, false⟩)
              template.exclude false).1 0).fs,
          (runSteps mm env template.path
            (resolveOutputPath cwd answers ⟨output, force, false⟩)
            (mergeSpread template.values answers) answers false
            template.steps
            (copyTemplate mm fs0 template.path
              (resolveOutputPath cwd answers ⟨output, force, false⟩)
              template.exclude false).1 0).uuidK⟩ := by
      simp only [createProjectCore]
      rw [if_neg hg']
    rw [hd_eq, hr_eq]
    have hct1 : (copyTemplate mm fs0 template.path
        (resolveOutputPath cwd answers ⟨output, force, true⟩)
        template.exclude true).1 = fs0 := rfl
    rw [hct1, ← hout]
    refine ⟨(runSteps_dry mm env template.path
        (resolveOutputPath cwd answers ⟨output, force, true⟩)
        (mergeSpread template.values answers) answers template.steps fs0 0).1,
      (runSteps_dry mm env template.path
        (resolveOutputPath cwd answers ⟨output, force, true⟩)
        (mergeSpread template.values answers) answers template.steps fs0 0).2,
      rfl, rfl, rfl, ?_⟩
    exact runSteps_parity mm env template.path
      (resolveOutputPath cwd answers ⟨output, force, true⟩)
      (mergeSpread template.values answers) answers template.steps fs0
      (copyTemplate mm fs0 template.path
        (resolveOutputPath cwd answers ⟨output, force, true⟩)
        template.exclude false).1 0 0

end PQS.Claims
